import Mathlib

/-!
# Formal model of the memory-allocator core (arena, stack, double-ended stack, pool, stats)

Shallow embedding of the allocators found in `src/avila-math/src/memory/arena.rs`,
`src/src/memory/stack.rs`, `src/avila-math/src/memory/pool.rs` and
`src/avila-math/src/memory/manager.rs`.  `usize` is modelled as `Nat`; the raw
backing buffers are abstracted away (only cursor arithmetic and the stack
allocator's headers are observable), and heap-allocation failure of the backing
block (`alloc` returning null, `Layout` construction) is outside the model.
Constructors whose Rust originals `assert!` on bad configuration are modelled
as `Option`-returning functions (`none` = the assertion fires and the value is
never constructed).
-/

namespace Kernel

/-- `align_up` from `arena.rs` / `stack.rs`: `(value + align - 1) & !(align - 1)`.
For a power-of-two `align` (the only alignments the crate uses) this bit mask
clears the low bits, i.e. rounds `value + align - 1` down to a multiple of
`align`; on `Nat` (no word-size wrap) that is subtraction of the remainder. -/
def align_up (value align : Nat) : Nat :=
  (value + align - 1) - (value + align - 1) % align

/-- The downward mask `new_offset & !(align - 1)` used by
`DoubleEndedStack::alloc_top`: rounds `value` down to a multiple of the
power-of-two `align`. -/
def align_down (value align : Nat) : Nat :=
  value - value % align

/-! ## Arena (`src/avila-math/src/memory/arena.rs`) -/

/-- Observable state of `Arena`: the fixed capacity and the bump cursor
(`offset: Cell<usize>`). -/
structure Arena where
  capacity : Nat
  offset : Nat
deriving DecidableEq

/-- `Arena::new(capacity)`: `assert!(capacity > 0)`, cursor starts at 0.
`none` models the assertion firing. -/
def Arena.new (capacity : Nat) : Option Arena :=
  if capacity = 0 then none else some ⟨capacity, 0⟩

/-- `Arena::alloc(size, align)`.  Returns the (possibly unchanged) state and
the returned address as an offset from the buffer base.  On `Nat` the
`checked_add` of the source never fails; the only failure is `new_offset >
capacity`. -/
def Arena.alloc (a : Arena) (size align : Nat) : Arena × Option Nat :=
  let aligned_offset := align_up a.offset align
  let new_offset := aligned_offset + size
  if a.capacity < new_offset then (a, none)
  else ({ a with offset := new_offset }, some aligned_offset)

/-- `Arena::reset()`. -/
def Arena.reset (a : Arena) : Arena := { a with offset := 0 }

/-- `Arena::used()`. -/
def Arena.used (a : Arena) : Nat := a.offset

/-- `Arena::available()`. -/
def Arena.available (a : Arena) : Nat := a.capacity - a.offset

/-- `ArenaCheckpoint` is the saved cursor; `Arena::checkpoint()`. -/
def Arena.checkpoint (a : Arena) : Nat := a.offset

/-- `Arena::restore(checkpoint)`: `assert!(checkpoint.offset <= self.offset)`,
then the cursor is set back.  `none` models the assertion firing. -/
def Arena.restore (a : Arena) (checkpoint : Nat) : Option Arena :=
  if checkpoint ≤ a.offset then some { a with offset := checkpoint } else none

/-- Run a sequence of `alloc` requests `(size, align)` against an arena,
collecting the successful `(address, size)` pairs in order; the boolean is
`true` iff every request succeeded.  Failed requests leave the state unchanged
(per `Arena.alloc`) and the run continues. -/
def Arena.runAllocs (a : Arena) : List (Nat × Nat) → Arena × List (Nat × Nat) × Bool
  | [] => (a, [], true)
  | (size, align) :: rest =>
    let step := Arena.alloc a size align
    let r := Arena.runAllocs step.1 rest
    match step.2 with
    | some addr => (r.1, (addr, size) :: r.2.1, r.2.2)
    | none => (r.1, r.2.1, false)

/-- The cursor value after one `alloc(size, align)` placed at cursor `c`. -/
def bumpCursor (c : Nat) (op : Nat × Nat) : Nat :=
  align_up c op.2 + op.1

/-- The cursor after a sequence of back-to-back allocations starting at `c`
(assuming all of them fit); its value from `0` is the "total aligned size" of
the sequence. -/
def cursorAfter (c : Nat) (ops : List (Nat × Nat)) : Nat :=
  ops.foldl bumpCursor c

/-! ## Stack allocator (`src/src/memory/stack.rs`) -/

/-- `AllocationHeader { size, prev_offset }` written immediately before each
stack allocation's payload. -/
structure AllocationHeader where
  size : Nat
  prev_offset : Nat
deriving DecidableEq

/-- `std::mem::size_of::<AllocationHeader>()`: two `usize` fields in `repr(C)`
on a 64-bit target. -/
def HEADER_SIZE : Nat := 16

/-- Observable state of `StackAllocator`: capacity, the bump cursor
(`offset: Cell<usize>`), and the buffer contents abstracted to the headers
written into it — an association list from header offset to header, most
recent write first (a later write at the same offset shadows the earlier
one, as it would in the raw buffer). -/
structure StackAllocator where
  capacity : Nat
  offset : Nat
  mem : List (Nat × AllocationHeader)
deriving DecidableEq

/-- `StackAllocator::new(capacity)`: `assert!(capacity > 0)`. -/
def StackAllocator.new (capacity : Nat) : Option StackAllocator :=
  if capacity = 0 then none else some ⟨capacity, 0, []⟩

/-- `StackAllocator::alloc(size, align)`: align the cursor, write a header
`{size, prev_offset = current cursor}` at the aligned offset, return the data
offset just past the header.  Fails (state untouched, no header written) when
the new cursor would pass `capacity`; `checked_add` never fails on `Nat`. -/
def StackAllocator.alloc (s : StackAllocator) (size align : Nat) :
    StackAllocator × Option Nat :=
  let aligned_offset := align_up s.offset align
  let header_offset := aligned_offset
  let data_offset := header_offset + HEADER_SIZE
  let new_offset := data_offset + size
  if s.capacity < new_offset then (s, none)
  else
    ({ s with
        offset := new_offset
        mem := (header_offset, ⟨size, s.offset⟩) :: s.mem },
      some data_offset)

/-- `StackAllocator::free(ptr)`: read the header stored `HEADER_SIZE` bytes
before the data offset, check (the `debug_assert!`) that the allocation is the
one on top of the stack, and rewind the cursor to `prev_offset`.  Reading
memory where no header was written, or freeing out of order, is a contract
violation, modelled as `none`. -/
def StackAllocator.free (s : StackAllocator) (data_offset : Nat) :
    Option StackAllocator :=
  let header_offset := data_offset - HEADER_SIZE
  match s.mem.lookup header_offset with
  | none => none
  | some header =>
    if data_offset + header.size = s.offset then
      some { s with offset := header.prev_offset }
    else none

/-- `StackAllocator::mark()` returns the current cursor (`StackMark`). -/
def StackAllocator.mark (s : StackAllocator) : Nat := s.offset

/-- `StackAllocator::free_to_mark(mark)`:
`assert!(mark.offset <= self.offset)`, then set the cursor to the mark. -/
def StackAllocator.free_to_mark (s : StackAllocator) (mark : Nat) :
    Option StackAllocator :=
  if mark ≤ s.offset then some { s with offset := mark } else none

/-- `StackAllocator::clear()`. -/
def StackAllocator.clear (s : StackAllocator) : StackAllocator :=
  { s with offset := 0 }

/-- `StackAllocator::used()`. -/
def StackAllocator.used (s : StackAllocator) : Nat := s.offset

/-- `StackAllocator::available()`. -/
def StackAllocator.available (s : StackAllocator) : Nat := s.capacity - s.offset

/-- Run a sequence of stack `alloc` requests, collecting the returned data
offsets in order; the boolean is `true` iff every request succeeded. -/
def StackAllocator.runAllocs (s : StackAllocator) :
    List (Nat × Nat) → StackAllocator × List Nat × Bool
  | [] => (s, [], true)
  | (size, align) :: rest =>
    let step := StackAllocator.alloc s size align
    let r := StackAllocator.runAllocs step.1 rest
    match step.2 with
    | some d => (r.1, d :: r.2.1, r.2.2)
    | none => (r.1, r.2.1, false)

/-- Free a list of data offsets one by one, in the given order, propagating
any contract violation. -/
def StackAllocator.freeSeq (s : StackAllocator) (ds : List Nat) :
    Option StackAllocator :=
  ds.foldlM StackAllocator.free s

/-! ## Double-ended stack (`src/src/memory/stack.rs`) -/

/-- Observable state of `DoubleEndedStack`: capacity and the two cursors
(`bottom_offset` grows up from 0, `top_offset` grows down from capacity). -/
structure DoubleEndedStack where
  capacity : Nat
  bottom_offset : Nat
  top_offset : Nat
deriving DecidableEq

/-- `DoubleEndedStack::new(capacity)`: `assert!(capacity > 0)`; cursors start
at `0` and `capacity`. -/
def DoubleEndedStack.new (capacity : Nat) : Option DoubleEndedStack :=
  if capacity = 0 then none else some ⟨capacity, 0, capacity⟩

/-- `DoubleEndedStack::alloc_bottom(size, align)`: fails iff the bumped bottom
cursor would reach or pass the top cursor (`new_offset >= self.top_offset`);
`checked_add` never fails on `Nat`. -/
def DoubleEndedStack.alloc_bottom (s : DoubleEndedStack) (size align : Nat) :
    DoubleEndedStack × Option Nat :=
  let aligned := align_up s.bottom_offset align
  let new_offset := aligned + size
  if s.top_offset ≤ new_offset then (s, none)
  else ({ s with bottom_offset := new_offset }, some aligned)

/-- `DoubleEndedStack::alloc_top(size, align)`: `checked_sub` fails when
`size > top_offset`; otherwise the aligned-down new top cursor must stay
strictly above the bottom cursor (`aligned <= self.bottom_offset` fails). -/
def DoubleEndedStack.alloc_top (s : DoubleEndedStack) (size align : Nat) :
    DoubleEndedStack × Option Nat :=
  if s.top_offset < size then (s, none)
  else
    let new_offset := s.top_offset - size
    let aligned := align_down new_offset align
    if aligned ≤ s.bottom_offset then (s, none)
    else ({ s with top_offset := aligned }, some aligned)

/-- `DoubleEndedStack::clear_bottom()`. -/
def DoubleEndedStack.clear_bottom (s : DoubleEndedStack) : DoubleEndedStack :=
  { s with bottom_offset := 0 }

/-- `DoubleEndedStack::clear_top()`. -/
def DoubleEndedStack.clear_top (s : DoubleEndedStack) : DoubleEndedStack :=
  { s with top_offset := s.capacity }

/-- `DoubleEndedStack::clear()`. -/
def DoubleEndedStack.clear (s : DoubleEndedStack) : DoubleEndedStack :=
  s.clear_bottom.clear_top

/-- `DoubleEndedStack::used()`. -/
def DoubleEndedStack.used (s : DoubleEndedStack) : Nat :=
  s.bottom_offset + (s.capacity - s.top_offset)

/-- One public operation on the double-ended stack (allocation results are
discarded: only the state evolution matters for the invariant). -/
inductive DEOp where
  | alloc_bottom (size align : Nat)
  | alloc_top (size align : Nat)
  | clear_bottom
  | clear_top
  | clear
deriving DecidableEq

/-- Apply one operation to the double-ended stack state. -/
def DEOp.apply (s : DoubleEndedStack) : DEOp → DoubleEndedStack
  | .alloc_bottom size align => (s.alloc_bottom size align).1
  | .alloc_top size align => (s.alloc_top size align).1
  | .clear_bottom => s.clear_bottom
  | .clear_top => s.clear_top
  | .clear => s.clear

/-- Run a sequence of double-ended-stack operations. -/
def DoubleEndedStack.run (s : DoubleEndedStack) (ops : List DEOp) :
    DoubleEndedStack :=
  ops.foldl DEOp.apply s

/-! ## Pool (`src/avila-math/src/memory/pool.rs`)

A chunk address is abstracted as a pair `(block index, byte offset inside the
block)`; the source's raw pointer `block_base.add(i * chunk_size)` corresponds
to `(block, i * chunk_size)`.  The free list is a `Vec` used as a LIFO stack
(`push`/`pop` at the back); it is modelled as a `List` whose head is the
`Vec`'s back. -/

/-- Observable state of `Pool`.  `blocks` is the number of owned blocks
(`self.blocks.borrow().len()`); block `i` was allocated `i`-th. -/
structure Pool where
  chunk_size : Nat
  chunk_align : Nat
  chunks_per_block : Nat
  blocks : Nat
  free_list : List (Nat × Nat)
  total_allocated : Nat
  total_freed : Nat
deriving DecidableEq

/-- `usize::is_power_of_two` (`count_ones() == 1`): `n` is some `2^k`.  The
bound `k ≤ n` makes the test decidable and loses nothing since `k < 2^k`. -/
def is_power_of_two (n : Nat) : Bool :=
  decide (∃ k ≤ n, n = 2 ^ k)

/-- `Pool::new(chunk_size, chunk_align, chunks_per_block)`: asserts
`chunk_size > 0`, `chunk_align.is_power_of_two()`, `chunks_per_block > 0`;
starts with no blocks and an empty free list. -/
def Pool.new (chunk_size chunk_align chunks_per_block : Nat) : Option Pool :=
  if chunk_size = 0 then none
  else if !is_power_of_two chunk_align then none
  else if chunks_per_block = 0 then none
  else some ⟨chunk_size, chunk_align, chunks_per_block, 0, [], 0, 0⟩

/-- `Pool::allocate_new_block()`: allocate block number `self.blocks.len()`
and push its chunks `0, 1, …, chunks_per_block - 1` onto the free list in
order (so the highest-index chunk ends up on top). -/
def Pool.allocate_new_block (p : Pool) : Pool :=
  { p with
      blocks := p.blocks + 1
      free_list :=
        (List.range p.chunks_per_block).foldl
          (fun fl i => (p.blocks, i * p.chunk_size) :: fl) p.free_list }

/-- `Pool::alloc()`: pop the free list; if it is empty, allocate one new block
and retry once. -/
def Pool.alloc (p : Pool) : Pool × Option (Nat × Nat) :=
  match p.free_list with
  | ptr :: rest =>
    ({ p with free_list := rest, total_allocated := p.total_allocated + 1 },
      some ptr)
  | [] =>
    let p1 := p.allocate_new_block
    match p1.free_list with
    | ptr :: rest =>
      ({ p1 with free_list := rest, total_allocated := p1.total_allocated + 1 },
        some ptr)
    | [] => (p1, none)

/-- `Pool::free(ptr)`: push the address back and bump the freed counter.  The
caller guarantees the address came from this pool. -/
def Pool.free (p : Pool) (ptr : Nat × Nat) : Pool :=
  { p with free_list := ptr :: p.free_list, total_freed := p.total_freed + 1 }

/-- `PoolStats` as computed by `Pool::stats()`.  `chunks_in_use` is
`allocated - freed` (`Nat` subtraction; over-freeing is a contract violation
outside the model). -/
structure PoolStats where
  chunk_size : Nat
  chunks_per_block : Nat
  total_blocks : Nat
  total_chunks : Nat
  chunks_in_use : Nat
  chunks_free : Nat
  total_allocated : Nat
  total_freed : Nat
  memory_used : Nat
  memory_reserved : Nat
deriving DecidableEq

/-- `Pool::stats()`. -/
def Pool.stats (p : Pool) : PoolStats :=
  let allocated := p.total_allocated
  let freed := p.total_freed
  let in_use := allocated - freed
  let free_chunks := p.free_list.length
  let total_chunks := p.blocks * p.chunks_per_block
  { chunk_size := p.chunk_size
    chunks_per_block := p.chunks_per_block
    total_blocks := p.blocks
    total_chunks := total_chunks
    chunks_in_use := in_use
    chunks_free := free_chunks
    total_allocated := allocated
    total_freed := freed
    memory_used := in_use * p.chunk_size
    memory_reserved := total_chunks * p.chunk_size }

/-- Perform `n` pool allocations in a row, collecting the results. -/
def Pool.allocN (p : Pool) : Nat → Pool × List (Option (Nat × Nat))
  | 0 => (p, [])
  | n + 1 =>
    let step := p.alloc
    let r := step.1.allocN n
    (r.1, step.2 :: r.2)

/-! ## MemoryStats (`src/avila-math/src/memory/manager.rs`)

The counters are `AtomicUsize`; atomic `fetch_add`/`fetch_sub` wrap modulo
`2^64`, so the embedding keeps every field reduced modulo `2^64`.  The claims
are about single-threaded histories, so the compare-and-retry loop that
updates the peak collapses to `max`. -/

/-- `2^64`, the `usize` modulus on the 64-bit target. -/
def U64 : Nat := 2 ^ 64

/-- Wrapping `usize` subtraction (`fetch_sub`) for `a < 2^64`. -/
def wrapSub (a b : Nat) : Nat := (a + U64 - b % U64) % U64

/-- Observable state of `MemoryStats`. -/
structure MemoryStats where
  total_allocations : Nat
  total_deallocations : Nat
  total_bytes_allocated : Nat
  total_bytes_deallocated : Nat
  peak_memory_usage : Nat
  current_memory_usage : Nat
deriving DecidableEq

/-- `MemoryStats::new()`: all counters zero. -/
def MemoryStats.new : MemoryStats := ⟨0, 0, 0, 0, 0, 0⟩

/-- `MemoryStats::record_allocation(size)`: bump the counters, add `size` to
the current usage, then raise the peak to the new current usage if it is
larger (the sequential meaning of the compare-and-retry loop). -/
def MemoryStats.record_allocation (s : MemoryStats) (size : Nat) : MemoryStats :=
  let current := (s.current_memory_usage + size) % U64
  { s with
      total_allocations := (s.total_allocations + 1) % U64
      total_bytes_allocated := (s.total_bytes_allocated + size) % U64
      current_memory_usage := current
      peak_memory_usage := max s.peak_memory_usage current }

/-- `MemoryStats::record_deallocation(size)`: bump the counters and subtract
`size` from the current usage (wrapping, as `fetch_sub` does).  The peak is
not touched. -/
def MemoryStats.record_deallocation (s : MemoryStats) (size : Nat) : MemoryStats :=
  { s with
      total_deallocations := (s.total_deallocations + 1) % U64
      total_bytes_deallocated := (s.total_bytes_deallocated + size) % U64
      current_memory_usage := wrapSub s.current_memory_usage size }

/-- `MemoryStats::reset()`: store 0 into every counter, the peak included. -/
def MemoryStats.reset (_ : MemoryStats) : MemoryStats := MemoryStats.new

/-- One operation in a `MemoryStats` history. -/
inductive StatsOp where
  | rec_alloc (size : Nat)
  | rec_dealloc (size : Nat)
  | reset
deriving DecidableEq

/-- Apply one operation. -/
def StatsOp.apply (s : MemoryStats) : StatsOp → MemoryStats
  | .rec_alloc size => s.record_allocation size
  | .rec_dealloc size => s.record_deallocation size
  | .reset => s.reset

/-- Run a history of operations. -/
def MemoryStats.run (s : MemoryStats) (ops : List StatsOp) : MemoryStats :=
  ops.foldl StatsOp.apply s

/-- `true` iff the history contains no `reset`. -/
def noReset (ops : List StatsOp) : Bool :=
  ops.all fun op => match op with | .reset => false | _ => true

/-- `true` iff along the history every recorded deallocation is at most the
current usage at the moment it is recorded (no `fetch_sub` underflow). -/
def validDeallocs (s : MemoryStats) : List StatsOp → Bool
  | [] => true
  | op :: rest =>
    (match op with
      | .rec_dealloc size => size % U64 ≤ s.current_memory_usage
      | _ => true)
    && validDeallocs (StatsOp.apply s op) rest

/-! ## Helper lemmas -/

theorem align_up_le_self (value align : Nat) (h : 0 < align) :
    value ≤ align_up value align := by
  unfold align_up
  have hlt : (value + align - 1) % align < align := Nat.mod_lt _ h
  omega

theorem align_down_le_self (value align : Nat) : align_down value align ≤ value := by
  unfold align_down
  omega

theorem pow2_pos {a : Nat} (h : ∃ k, a = 2 ^ k) : 0 < a := by
  obtain ⟨k, rfl⟩ := h
  exact Nat.pos_pow_of_pos k (by decide)

/-- The double-ended-stack invariant: the cursors never cross and the top
cursor never passes the capacity. -/
def DEInv (s : DoubleEndedStack) : Prop :=
  s.bottom_offset ≤ s.top_offset ∧ s.top_offset ≤ s.capacity

theorem DEInv_apply {s : DoubleEndedStack} (h : DEInv s) (op : DEOp) :
    DEInv (DEOp.apply s op) := by
  obtain ⟨h1, h2⟩ := h
  have hd := align_down_le_self (s.top_offset - (match op with
    | .alloc_top size _ => size | _ => 0)) (match op with
    | .alloc_top _ align => align | _ => 1)
  cases op <;>
    simp only [DEOp.apply, DoubleEndedStack.alloc_bottom,
      DoubleEndedStack.alloc_top, DoubleEndedStack.clear_bottom,
      DoubleEndedStack.clear_top, DoubleEndedStack.clear, DEInv] at * <;>
    first
      | omega
      | (split_ifs <;> simp_all <;> omega)

theorem DEInv_run {s : DoubleEndedStack} (h : DEInv s) (ops : List DEOp) :
    DEInv (s.run ops) := by
  induction ops generalizing s with
  | nil => exact h
  | cons op rest ih => exact ih (DEInv_apply h op)

theorem bumpCursor_le (c : Nat) (op : Nat × Nat) (h : 0 < op.2) :
    c ≤ bumpCursor c op :=
  le_trans (align_up_le_self c op.2 h) (Nat.le_add_right _ _)

theorem le_cursorAfter (c : Nat) (ops : List (Nat × Nat))
    (h : ∀ p ∈ ops, 0 < p.2) : c ≤ cursorAfter c ops := by
  induction ops generalizing c with
  | nil => exact Nat.le_refl c
  | cons op rest ih =>
    have h1 : c ≤ bumpCursor c op := bumpCursor_le c op (h op (by simp))
    have h2 : bumpCursor c op ≤ cursorAfter (bumpCursor c op) rest :=
      ih _ fun p hp => h p (List.mem_cons_of_mem _ hp)
    exact le_trans h1 h2

theorem arena_alloc_offset_le (a : Arena) (size align : Nat) (h : 0 < align) :
    a.offset ≤ (Arena.alloc a size align).1.offset := by
  simp only [Arena.alloc]
  split_ifs
  · exact Nat.le_refl _
  · exact le_trans (align_up_le_self a.offset align h) (Nat.le_add_right _ _)

theorem arena_runAllocs_state (a : Arena) (size align : Nat)
    (rest : List (Nat × Nat)) :
    (Arena.runAllocs a ((size, align) :: rest)).1 =
      (Arena.runAllocs (Arena.alloc a size align).1 rest).1 := by
  simp only [Arena.runAllocs]
  rcases (Arena.alloc a size align).2 <;> rfl

theorem arena_offset_mono (ops : List (Nat × Nat)) : ∀ a : Arena,
    (∀ p ∈ ops, 0 < p.2) → a.offset ≤ (Arena.runAllocs a ops).1.offset := by
  induction ops with
  | nil => intro a _; exact Nat.le_refl _
  | cons op rest ih =>
    intro a h
    obtain ⟨size, align⟩ := op
    rw [arena_runAllocs_state]
    have h1 : a.offset ≤ (Arena.alloc a size align).1.offset :=
      arena_alloc_offset_le a size align (h (size, align) (by simp))
    have h2 := ih (Arena.alloc a size align).1
      fun p hp => h p (List.mem_cons_of_mem _ hp)
    exact le_trans h1 h2

theorem arena_runAllocs_fits (ops : List (Nat × Nat)) : ∀ a : Arena,
    (∀ p ∈ ops, 0 < p.2) → cursorAfter a.offset ops ≤ a.capacity →
    (Arena.runAllocs a ops).2.2 = true ∧
    (Arena.runAllocs a ops).1.offset = cursorAfter a.offset ops ∧
    (Arena.runAllocs a ops).1.capacity = a.capacity ∧
    (∀ q ∈ (Arena.runAllocs a ops).2.1, a.offset ≤ q.1 ∧ q.1 + q.2 ≤ a.capacity) ∧
    List.Pairwise (fun x y => x ≤ y) ((Arena.runAllocs a ops).2.1.map Prod.fst) := by
  induction ops with
  | nil =>
    intro a _ _
    simp [Arena.runAllocs, cursorAfter]
  | cons op rest ih =>
    intro a h hfit
    obtain ⟨size, align⟩ := op
    have hpos : 0 < align := h (size, align) (by simp)
    have hrest : ∀ p ∈ rest, 0 < p.2 := fun p hp => h p (List.mem_cons_of_mem _ hp)
    have hcur : cursorAfter a.offset ((size, align) :: rest)
        = cursorAfter (align_up a.offset align + size) rest := rfl
    have hb : align_up a.offset align + size
        ≤ cursorAfter (align_up a.offset align + size) rest := by
      have := le_cursorAfter (bumpCursor a.offset (size, align)) rest hrest
      exact this
    have hsucc : align_up a.offset align + size ≤ a.capacity := by
      rw [hcur] at hfit
      exact le_trans hb hfit
    have halloc : Arena.alloc a size align =
        ({ a with offset := align_up a.offset align + size },
          some (align_up a.offset align)) := by
      simp only [Arena.alloc]
      rw [if_neg (by omega)]
    have hfit1 :
        cursorAfter (Arena.mk a.capacity (align_up a.offset align + size)).offset
          rest ≤ (Arena.mk a.capacity (align_up a.offset align + size)).capacity := by
      rw [hcur] at hfit
      exact hfit
    obtain ⟨ih1, ih2, ih3, ih4, ih5⟩ := ih _ hrest hfit1
    simp only [Arena.runAllocs, halloc]
    refine ⟨ih1, by rw [ih2]; rfl, ih3, ?_, ?_⟩
    · intro q hq
      rcases List.mem_cons.mp hq with hq | hq
      · subst hq
        exact ⟨align_up_le_self a.offset align hpos, hsucc⟩
      · obtain ⟨hq1, hq2⟩ := ih4 q hq
        refine ⟨le_trans ?_ hq1, hq2⟩
        exact le_trans (align_up_le_self a.offset align hpos) (Nat.le_add_right _ _)
    · rw [List.map_cons, List.pairwise_cons]
      refine ⟨?_, ih5⟩
      intro y hy
      obtain ⟨q, hq, rfl⟩ := List.mem_map.mp hy
      have := (ih4 q hq).1
      exact le_trans (Nat.le_add_right _ size) this

/-! ## Claims -/

/-- C1 (counterexample): on a fresh double-ended stack of capacity 16,
`alloc_bottom(16, 1)` would make the cursors exactly meet
(`align_up 0 1 + 16 = 16 = top_offset`), so by the claim it should succeed —
but the code returns no allocation (`new_offset >= self.top_offset`). -/
theorem C1_counterexample :
    DoubleEndedStack.new 16 = some ⟨16, 0, 16⟩ ∧
    align_up 0 1 + 16 = 16 ∧
    (DoubleEndedStack.alloc_bottom ⟨16, 0, 16⟩ 16 1).2 = none := by
  refine ⟨by decide, by decide, by decide⟩

/-- C1 (amended): `alloc_bottom` fails exactly when the bumped bottom cursor
would reach *or* pass the top cursor, and `alloc_top` fails exactly when
`size` exceeds the top cursor or the aligned-down new top cursor would reach
*or* pass the bottom cursor; in particular a request that would make the
cursors exactly meet also fails. -/
theorem C1_fail_iff_meet_or_cross (s : DoubleEndedStack) (size align : Nat)
    (halign : ∃ k, align = 2 ^ k) :
    ((s.alloc_bottom size align).2 = none ↔
      s.top_offset ≤ align_up s.bottom_offset align + size) ∧
    ((s.alloc_top size align).2 = none ↔
      s.top_offset < size ∨
        align_down (s.top_offset - size) align ≤ s.bottom_offset) := by
  clear halign
  constructor
  · simp only [DoubleEndedStack.alloc_bottom]
    split_ifs with h <;> simp [h]
  · simp only [DoubleEndedStack.alloc_top]
    split_ifs with h1 h2 <;> simp_all <;> omega

/-- C1 (witness for the amended theorem). -/
theorem C1_fail_iff_meet_or_cross_witness :
    (((⟨16, 0, 16⟩ : DoubleEndedStack).alloc_bottom 4 4).2 = none ↔
      (16 : Nat) ≤ align_up 0 4 + 4) ∧
    (((⟨16, 0, 16⟩ : DoubleEndedStack).alloc_top 4 4).2 = none ↔
      (16 : Nat) < 4 ∨ align_down (16 - 4) 4 ≤ 0) :=
  C1_fail_iff_meet_or_cross ⟨16, 0, 16⟩ 4 4 ⟨2, rfl⟩

/-- C2: starting from the constructed state (`bottom_offset = 0`,
`top_offset = capacity`), every sequence of `alloc_bottom`, `alloc_top`,
`clear_bottom`, `clear_top`, `clear` operations keeps
`bottom_offset ≤ top_offset`. -/
theorem C2_cursor_invariant (cap : Nat) (s₀ : DoubleEndedStack)
    (h : DoubleEndedStack.new cap = some s₀) (ops : List DEOp) :
    (s₀.run ops).bottom_offset ≤ (s₀.run ops).top_offset := by
  have hinv : DEInv s₀ := by
    unfold DoubleEndedStack.new at h
    split_ifs at h
    cases h
    exact ⟨Nat.zero_le _, Nat.le_refl _⟩
  exact (DEInv_run hinv ops).1

/-- C2 (witness). -/
theorem C2_cursor_invariant_witness :
    (DoubleEndedStack.run ⟨16, 0, 16⟩
        [.alloc_bottom 4 1, .alloc_top 4 1, .clear_top]).bottom_offset ≤
      (DoubleEndedStack.run ⟨16, 0, 16⟩
        [.alloc_bottom 4 1, .alloc_top 4 1, .clear_top]).top_offset :=
  C2_cursor_invariant 16 ⟨16, 0, 16⟩ (by decide)
    [.alloc_bottom 4 1, .alloc_top 4 1, .clear_top]

/-- C5: `Arena::alloc` fails exactly on exhaustion — `none` iff the aligned
offset plus `size` exceeds the capacity — and on the fresh capacity-64 arena
`alloc(32, 1)` succeeds twice and a third `alloc(32, 1)` returns `none`. -/
theorem C5_arena_exhaustion_only (a : Arena) (size align : Nat)
    (halign : ∃ k, align = 2 ^ k) :
    ((a.alloc size align).2 = none ↔
      a.capacity < align_up a.offset align + size) ∧
    (Arena.new 64 = some ⟨64, 0⟩ ∧
      (Arena.alloc ⟨64, 0⟩ 32 1).2.isSome = true ∧
      (Arena.alloc ⟨64, 0⟩ 32 1).1 = ⟨64, 32⟩ ∧
      (Arena.alloc ⟨64, 32⟩ 32 1).2.isSome = true ∧
      (Arena.alloc ⟨64, 32⟩ 32 1).1 = ⟨64, 64⟩ ∧
      (Arena.alloc ⟨64, 64⟩ 32 1).2 = none) := by
  clear halign
  constructor
  · simp only [Arena.alloc]
    split_ifs with h <;> simp [h]
  · refine ⟨by decide, by decide, by decide, by decide, by decide, by decide⟩

/-- C5 (witness). -/
theorem C5_arena_exhaustion_only_witness :
    (((⟨64, 64⟩ : Arena).alloc 32 1).2 = none ↔
      (64 : Nat) < align_up 64 1 + 32) ∧
    (Arena.new 64 = some ⟨64, 0⟩ ∧
      (Arena.alloc ⟨64, 0⟩ 32 1).2.isSome = true ∧
      (Arena.alloc ⟨64, 0⟩ 32 1).1 = ⟨64, 32⟩ ∧
      (Arena.alloc ⟨64, 32⟩ 32 1).2.isSome = true ∧
      (Arena.alloc ⟨64, 32⟩ 32 1).1 = ⟨64, 64⟩ ∧
      (Arena.alloc ⟨64, 64⟩ 32 1).2 = none) :=
  C5_arena_exhaustion_only ⟨64, 64⟩ 32 1 ⟨0, rfl⟩

/-- C9: every constructor refuses every invalid configuration (zero capacity
for arena, stack and double-ended stack; zero chunk size, non-power-of-two
alignment or zero chunks-per-block for the pool), and any allocator that does
come into existence satisfies its configuration validity conditions. -/
theorem C9_construction_fails_fast (cap c a n : Nat) :
    (cap = 0 →
      Arena.new cap = none ∧ StackAllocator.new cap = none ∧
        DoubleEndedStack.new cap = none) ∧
    (c = 0 ∨ is_power_of_two a = false ∨ n = 0 → Pool.new c a n = none) ∧
    (∀ ar, Arena.new cap = some ar → 0 < ar.capacity) ∧
    (∀ st, StackAllocator.new cap = some st → 0 < st.capacity) ∧
    (∀ ds, DoubleEndedStack.new cap = some ds → 0 < ds.capacity) ∧
    (∀ p, Pool.new c a n = some p →
      0 < p.chunk_size ∧ is_power_of_two p.chunk_align = true ∧
        0 < p.chunks_per_block) := by
  refine ⟨?_, ?_, ?_, ?_, ?_, ?_⟩
  · rintro rfl
    refine ⟨rfl, rfl, rfl⟩
  · intro h
    unfold Pool.new
    rcases h with rfl | hpow | rfl
    · simp
    · simp [hpow]
    · simp
  · intro ar h
    unfold Arena.new at h
    split_ifs at h with hc
    cases h
    dsimp only
    omega
  · intro st h
    unfold StackAllocator.new at h
    split_ifs at h with hc
    cases h
    dsimp only
    omega
  · intro ds h
    unfold DoubleEndedStack.new at h
    split_ifs at h with hc
    cases h
    dsimp only
    omega
  · intro p h
    unfold Pool.new at h
    split_ifs at h with h1 h2 h3
    cases h
    dsimp only
    refine ⟨by omega, by simpa using h2, by omega⟩

/-- C9 (witness). -/
theorem C9_construction_fails_fast_witness :
    Arena.new 0 = none ∧ Pool.new 0 6 0 = none ∧
      (∀ p, Pool.new 0 6 0 = some p →
        0 < p.chunk_size ∧ is_power_of_two p.chunk_align = true ∧
          0 < p.chunks_per_block) :=
  ⟨((C9_construction_fails_fast 0 0 6 0).1 rfl).1,
    (C9_construction_fails_fast 0 0 6 0).2.1 (Or.inl rfl),
    (C9_construction_fails_fast 0 0 6 0).2.2.2.2.2⟩

/-- C10: whenever an allocation request on the arena, the stack allocator, or
either end of the double-ended stack returns no allocation, the allocator's
entire observable state (cursors, headers, capacity — hence `used()` and
`available()`) is exactly what it was before the call. -/
theorem C10_failed_alloc_leaves_state (a : Arena) (s : StackAllocator)
    (d : DoubleEndedStack) (size align : Nat) :
    ((a.alloc size align).2 = none → (a.alloc size align).1 = a) ∧
    ((s.alloc size align).2 = none → (s.alloc size align).1 = s) ∧
    ((d.alloc_bottom size align).2 = none → (d.alloc_bottom size align).1 = d) ∧
    ((d.alloc_top size align).2 = none → (d.alloc_top size align).1 = d) := by
  refine ⟨?_, ?_, ?_, ?_⟩
  · simp only [Arena.alloc]
    split_ifs <;> simp
  · simp only [StackAllocator.alloc]
    split_ifs <;> simp
  · simp only [DoubleEndedStack.alloc_bottom]
    split_ifs <;> simp
  · simp only [DoubleEndedStack.alloc_top]
    split_ifs <;> simp

/-- C10 (witness): concrete exhausted requests on all three allocators leave
the state untouched. -/
theorem C10_failed_alloc_leaves_state_witness :
    (Arena.alloc ⟨1, 0⟩ 2 1).1 = (⟨1, 0⟩ : Arena) ∧
    (StackAllocator.alloc ⟨1, 0, []⟩ 2 1).1 = (⟨1, 0, []⟩ : StackAllocator) ∧
    (DoubleEndedStack.alloc_bottom ⟨1, 0, 1⟩ 2 1).1 =
      (⟨1, 0, 1⟩ : DoubleEndedStack) ∧
    (DoubleEndedStack.alloc_top ⟨1, 0, 1⟩ 2 1).1 =
      (⟨1, 0, 1⟩ : DoubleEndedStack) :=
  ⟨(C10_failed_alloc_leaves_state ⟨1, 0⟩ ⟨1, 0, []⟩ ⟨1, 0, 1⟩ 2 1).1 (by decide),
    (C10_failed_alloc_leaves_state ⟨1, 0⟩ ⟨1, 0, []⟩ ⟨1, 0, 1⟩ 2 1).2.1 (by decide),
    (C10_failed_alloc_leaves_state ⟨1, 0⟩ ⟨1, 0, []⟩ ⟨1, 0, 1⟩ 2 1).2.2.1 (by decide),
    (C10_failed_alloc_leaves_state ⟨1, 0⟩ ⟨1, 0, []⟩ ⟨1, 0, 1⟩ 2 1).2.2.2 (by decide)⟩

/-- C3: taking a checkpoint, performing any sequence of (successful or
failed) allocations, and then restoring the checkpoint succeeds (the restore
assertion holds) and brings `used()` back exactly to its value at checkpoint
time. -/
theorem C3_checkpoint_restore_used (a : Arena) (ops : List (Nat × Nat))
    (haligns : ∀ p ∈ ops, ∃ k, p.2 = 2 ^ k) :
    ∃ t, Arena.restore (Arena.runAllocs a ops).1 (Arena.checkpoint a) = some t ∧
      t.used = a.used := by
  have hpos : ∀ p ∈ ops, 0 < p.2 := fun p hp => pow2_pos (haligns p hp)
  have hmono := arena_offset_mono ops a hpos
  refine ⟨{ (Arena.runAllocs a ops).1 with offset := a.offset }, ?_, rfl⟩
  unfold Arena.restore Arena.checkpoint
  rw [if_pos hmono]

/-- C3 (witness): capacity-64 arena, `alloc(32,1)` then a failing
`alloc(40,1)`, then restore to the initial checkpoint. -/
theorem C3_checkpoint_restore_used_witness :
    ∃ t, Arena.restore (Arena.runAllocs ⟨64, 0⟩ [(32, 1), (40, 1)]).1
        (Arena.checkpoint ⟨64, 0⟩) = some t ∧
      t.used = Arena.used ⟨64, 0⟩ :=
  C3_checkpoint_restore_used ⟨64, 0⟩ [(32, 1), (40, 1)]
    (by intro p hp; fin_cases hp <;> exact ⟨0, rfl⟩)

/-- C6: for every sequence of arena allocations whose total aligned size is at
most the capacity of a fresh arena: every allocation succeeds, every returned
address lies within the block (`address + size ≤ capacity`), the returned
addresses are monotonically non-decreasing, and after `reset()` the arena has
`used() = 0`. -/
theorem C6_fitting_sequences (a : Arena) (ops : List (Nat × Nat))
    (hfresh : a.offset = 0)
    (haligns : ∀ p ∈ ops, ∃ k, p.2 = 2 ^ k)
    (hfit : cursorAfter 0 ops ≤ a.capacity) :
    (Arena.runAllocs a ops).2.2 = true ∧
    (∀ q ∈ (Arena.runAllocs a ops).2.1, q.1 + q.2 ≤ a.capacity) ∧
    List.Pairwise (fun x y => x ≤ y)
      ((Arena.runAllocs a ops).2.1.map Prod.fst) ∧
    ((Arena.runAllocs a ops).1.reset).used = 0 := by
  have hpos : ∀ p ∈ ops, 0 < p.2 := fun p hp => pow2_pos (haligns p hp)
  have hfit' : cursorAfter a.offset ops ≤ a.capacity := by
    rw [hfresh]; exact hfit
  obtain ⟨h1, _, _, h4, h5⟩ := arena_runAllocs_fits ops a hpos hfit'
  exact ⟨h1, fun q hq => (h4 q hq).2, h5, rfl⟩

/-- C6 (witness). -/
theorem C6_fitting_sequences_witness :
    (Arena.runAllocs ⟨64, 0⟩ [(8, 4), (16, 4)]).2.2 = true ∧
    (∀ q ∈ (Arena.runAllocs ⟨64, 0⟩ [(8, 4), (16, 4)]).2.1,
      q.1 + q.2 ≤ (64 : Nat)) ∧
    List.Pairwise (fun x y => x ≤ y)
      ((Arena.runAllocs ⟨64, 0⟩ [(8, 4), (16, 4)]).2.1.map Prod.fst) ∧
    ((Arena.runAllocs ⟨64, 0⟩ [(8, 4), (16, 4)]).1.reset).used = 0 :=
  C6_fitting_sequences ⟨64, 0⟩ [(8, 4), (16, 4)] rfl
    (by intro p hp; fin_cases hp <;> exact ⟨2, rfl⟩) (by decide)

theorem foldl_push_length (f : Nat → Nat × Nat) (l : List Nat) :
    ∀ init : List (Nat × Nat),
      (l.foldl (fun fl i => f i :: fl) init).length = l.length + init.length := by
  induction l with
  | nil => intro init; simp
  | cons x xs ih =>
    intro init
    rw [List.foldl_cons, ih (f x :: init)]
    simp only [List.length_cons]
    omega

theorem pool_new_block_free_list_length (p : Pool) :
    p.allocate_new_block.free_list.length =
      p.chunks_per_block + p.free_list.length := by
  unfold Pool.allocate_new_block
  simp only
  rw [foldl_push_length]
  simp

/-- C7: when the free list is empty, `Pool::alloc` allocates exactly one new
block of `chunks_per_block` chunks, pushes all of them onto the free list and
retries once, so the allocation succeeds and `chunks_per_block - 1` chunks
remain free; and on a fresh `Pool(8, 8, 4)` the first four allocations succeed
out of one block, the fifth triggers growth to a second block and succeeds,
after which `stats().total_blocks = 2`. -/
theorem C7_pool_growth (p : Pool) (hcpb : 0 < p.chunks_per_block)
    (hempty : p.free_list = []) :
    ((p.alloc).1.blocks = p.blocks + 1 ∧
      (p.alloc).2.isSome = true ∧
      (p.alloc).1.free_list.length = p.chunks_per_block - 1 ∧
      (p.alloc).1.total_allocated = p.total_allocated + 1) ∧
    (Pool.new 8 8 4 = some ⟨8, 8, 4, 0, [], 0, 0⟩ ∧
      ((⟨8, 8, 4, 0, [], 0, 0⟩ : Pool).allocN 4).2.all Option.isSome = true ∧
      ((⟨8, 8, 4, 0, [], 0, 0⟩ : Pool).allocN 4).1.stats.total_blocks = 1 ∧
      ((⟨8, 8, 4, 0, [], 0, 0⟩ : Pool).allocN 4).1.free_list = [] ∧
      ((⟨8, 8, 4, 0, [], 0, 0⟩ : Pool).allocN 5).2.all Option.isSome = true ∧
      ((⟨8, 8, 4, 0, [], 0, 0⟩ : Pool).allocN 5).1.stats.total_blocks = 2) := by
  constructor
  · have hlen : p.allocate_new_block.free_list.length = p.chunks_per_block := by
      rw [pool_new_block_free_list_length, hempty]
      rfl
    rcases hfl : p.allocate_new_block.free_list with _ | ⟨ptr, rest⟩
    · rw [hfl] at hlen
      simp at hlen
      omega
    · simp only [Pool.alloc, hempty, hfl]
      rw [hfl] at hlen
      simp only [List.length_cons] at hlen
      refine ⟨rfl, rfl, ?_, rfl⟩
      show rest.length = p.chunks_per_block - 1
      omega
  · refine ⟨by decide, by decide, by decide, by decide, by decide, by decide⟩

/-- C7 (witness): a fresh `Pool(8, 8, 4)` has an empty free list, and the
theorem applies to it. -/
theorem C7_pool_growth_witness :
    (((⟨8, 8, 4, 0, [], 0, 0⟩ : Pool).alloc).1.blocks = 0 + 1 ∧
      ((⟨8, 8, 4, 0, [], 0, 0⟩ : Pool).alloc).2.isSome = true ∧
      ((⟨8, 8, 4, 0, [], 0, 0⟩ : Pool).alloc).1.free_list.length = 4 - 1 ∧
      ((⟨8, 8, 4, 0, [], 0, 0⟩ : Pool).alloc).1.total_allocated = 0 + 1) ∧
    (Pool.new 8 8 4 = some ⟨8, 8, 4, 0, [], 0, 0⟩ ∧
      ((⟨8, 8, 4, 0, [], 0, 0⟩ : Pool).allocN 4).2.all Option.isSome = true ∧
      ((⟨8, 8, 4, 0, [], 0, 0⟩ : Pool).allocN 4).1.stats.total_blocks = 1 ∧
      ((⟨8, 8, 4, 0, [], 0, 0⟩ : Pool).allocN 4).1.free_list = [] ∧
      ((⟨8, 8, 4, 0, [], 0, 0⟩ : Pool).allocN 5).2.all Option.isSome = true ∧
      ((⟨8, 8, 4, 0, [], 0, 0⟩ : Pool).allocN 5).1.stats.total_blocks = 2) :=
  C7_pool_growth ⟨8, 8, 4, 0, [], 0, 0⟩ (by decide) rfl

theorem U64_pos : 0 < U64 := Nat.pos_pow_of_pos 64 (by decide)

theorem wrapSub_eq {a b : Nat} (ha : a < U64) (hb : b % U64 ≤ a) :
    wrapSub a b = a - b % U64 := by
  have hU : 0 < U64 := U64_pos
  have h1 : a + U64 - b % U64 = U64 + (a - b % U64) := by omega
  rw [wrapSub, h1, Nat.add_mod_left, Nat.mod_eq_of_lt (by omega)]

/-- C8 (counterexample): `peak_memory_usage` is not monotone across the
object's lifetime — `reset()` (one of the operations the claim covers) stores
0 into the peak, dropping it from 1 to 0 — and after a deallocation larger
than the current usage (a wrapping `fetch_sub`) the peak is below the current
usage. -/
theorem C8_counterexample :
    ((MemoryStats.new.record_allocation 1).reset).peak_memory_usage <
      (MemoryStats.new.record_allocation 1).peak_memory_usage ∧
    (MemoryStats.new.record_deallocation 1).peak_memory_usage <
      (MemoryStats.new.record_deallocation 1).current_memory_usage := by
  exact ⟨by decide, by decide⟩

/-- C8 (amended): excluding `reset` — which stores zero into every counter,
the peak included — and along histories in which no recorded
deallocation exceeds the current usage at the moment it is recorded (so the
`fetch_sub` never wraps), `peak_memory_usage` is monotonically non-decreasing
and at every observation `peak_memory_usage ≥ current_memory_usage`. -/
theorem C8_peak_monotone_no_reset (s : MemoryStats) (ops : List StatsOp)
    (hnr : noReset ops = true) (hvd : validDeallocs s ops = true)
    (hcb : s.current_memory_usage < U64) (hpb : s.peak_memory_usage < U64)
    (hcp : s.current_memory_usage ≤ s.peak_memory_usage) :
    s.peak_memory_usage ≤ (s.run ops).peak_memory_usage ∧
    (s.run ops).current_memory_usage ≤ (s.run ops).peak_memory_usage := by
  induction ops generalizing s with
  | nil => exact ⟨Nat.le_refl _, hcp⟩
  | cons op rest ih =>
    have hrun : s.run (op :: rest) = (StatsOp.apply s op).run rest := rfl
    have hnr' : noReset rest = true := by
      unfold noReset at hnr ⊢
      simp only [List.all_cons, Bool.and_eq_true] at hnr
      exact hnr.2
    have hvd' : validDeallocs (StatsOp.apply s op) rest = true := by
      unfold validDeallocs at hvd
      simp only [Bool.and_eq_true] at hvd
      exact hvd.2
    rw [hrun]
    cases op with
    | rec_alloc size =>
      have hc1 : (StatsOp.apply s (.rec_alloc size)).current_memory_usage
          = (s.current_memory_usage + size) % U64 := rfl
      have hp1 : (StatsOp.apply s (.rec_alloc size)).peak_memory_usage
          = max s.peak_memory_usage ((s.current_memory_usage + size) % U64) := rfl
      have hcb1 : (StatsOp.apply s (.rec_alloc size)).current_memory_usage < U64 := by
        rw [hc1]; exact Nat.mod_lt _ U64_pos
      have hpb1 : (StatsOp.apply s (.rec_alloc size)).peak_memory_usage < U64 := by
        rw [hp1]; exact max_lt hpb (Nat.mod_lt _ U64_pos)
      have hcp1 : (StatsOp.apply s (.rec_alloc size)).current_memory_usage
          ≤ (StatsOp.apply s (.rec_alloc size)).peak_memory_usage := by
        rw [hc1, hp1]; exact le_max_right _ _
      obtain ⟨ihm, ihc⟩ := ih _ hnr' hvd' hcb1 hpb1 hcp1
      refine ⟨le_trans ?_ ihm, ihc⟩
      rw [hp1]
      exact le_max_left _ _
    | rec_dealloc size =>
      have hguard : size % U64 ≤ s.current_memory_usage := by
        unfold validDeallocs at hvd
        simp only [Bool.and_eq_true] at hvd
        have := hvd.1
        simpa using this
      have hc1 : (StatsOp.apply s (.rec_dealloc size)).current_memory_usage
          = s.current_memory_usage - size % U64 := by
        show wrapSub s.current_memory_usage size = _
        exact wrapSub_eq hcb hguard
      have hp1 : (StatsOp.apply s (.rec_dealloc size)).peak_memory_usage
          = s.peak_memory_usage := rfl
      have hcb1 : (StatsOp.apply s (.rec_dealloc size)).current_memory_usage < U64 := by
        rw [hc1]; omega
      have hcp1 : (StatsOp.apply s (.rec_dealloc size)).current_memory_usage
          ≤ (StatsOp.apply s (.rec_dealloc size)).peak_memory_usage := by
        rw [hc1, hp1]; omega
      obtain ⟨ihm, ihc⟩ := ih _ hnr' hvd' hcb1 (by rw [hp1]; exact hpb) hcp1
      refine ⟨le_trans ?_ ihm, ihc⟩
      rw [hp1]
    | reset =>
      exfalso
      unfold noReset at hnr
      simp at hnr

/-- C8 (witness for the amended theorem). -/
theorem C8_peak_monotone_no_reset_witness :
    MemoryStats.new.peak_memory_usage ≤
      (MemoryStats.new.run [.rec_alloc 5, .rec_dealloc 3]).peak_memory_usage ∧
    (MemoryStats.new.run [.rec_alloc 5, .rec_dealloc 3]).current_memory_usage ≤
      (MemoryStats.new.run [.rec_alloc 5, .rec_dealloc 3]).peak_memory_usage :=
  C8_peak_monotone_no_reset MemoryStats.new [.rec_alloc 5, .rec_dealloc 3]
    (by decide) (by decide) U64_pos U64_pos (Nat.le_refl 0)

theorem stack_runAllocs_preserves (ops : List (Nat × Nat)) : ∀ s : StackAllocator,
    (∀ p ∈ ops, 0 < p.2) →
    s.offset ≤ (s.runAllocs ops).1.offset ∧
    ∀ k, k < s.offset →
      (s.runAllocs ops).1.mem.lookup k = s.mem.lookup k := by
  induction ops with
  | nil => intro s _; exact ⟨Nat.le_refl _, fun _ _ => rfl⟩
  | cons op rest ih =>
    intro s h
    obtain ⟨size, align⟩ := op
    have hpos : 0 < align := h (size, align) (by simp)
    have hrest : ∀ p ∈ rest, 0 < p.2 := fun p hp => h p (List.mem_cons_of_mem _ hp)
    by_cases hcap : s.capacity < align_up s.offset align + HEADER_SIZE + size
    · have halloc : StackAllocator.alloc s size align = (s, none) := by
        simp only [StackAllocator.alloc]
        rw [if_pos hcap]
      have hrun : (s.runAllocs ((size, align) :: rest)).1 = (s.runAllocs rest).1 := by
        simp only [StackAllocator.runAllocs, halloc]
      rw [hrun]
      exact ih s hrest
    · have halloc : StackAllocator.alloc s size align =
          (⟨s.capacity, align_up s.offset align + HEADER_SIZE + size,
            (align_up s.offset align, ⟨size, s.offset⟩) :: s.mem⟩,
            some (align_up s.offset align + HEADER_SIZE)) := by
        simp only [StackAllocator.alloc]
        rw [if_neg hcap]
      have hrun : (s.runAllocs ((size, align) :: rest)).1 =
          (StackAllocator.runAllocs
            ⟨s.capacity, align_up s.offset align + HEADER_SIZE + size,
              (align_up s.offset align, ⟨size, s.offset⟩) :: s.mem⟩ rest).1 := by
        simp only [StackAllocator.runAllocs, halloc]
      obtain ⟨ih1, ih2⟩ := ih
        ⟨s.capacity, align_up s.offset align + HEADER_SIZE + size,
          (align_up s.offset align, ⟨size, s.offset⟩) :: s.mem⟩ hrest
      have hup : s.offset ≤ align_up s.offset align := align_up_le_self _ _ hpos
      constructor
      · rw [hrun]
        refine le_trans ?_ ih1
        show s.offset ≤ align_up s.offset align + HEADER_SIZE + size
        omega
      · intro k hk
        rw [hrun, ih2 k (by show k < align_up s.offset align + HEADER_SIZE + size; omega)]
        have hne : (k == align_up s.offset align) = false :=
          beq_eq_false_iff_ne.mpr (by omega)
        show List.lookup k ((align_up s.offset align, _) :: s.mem) = _
        simp [List.lookup, hne]

theorem freeSeq_append (l l' : List Nat) : ∀ s : StackAllocator,
    StackAllocator.freeSeq s (l ++ l') =
      (StackAllocator.freeSeq s l).bind fun t => StackAllocator.freeSeq t l' := by
  induction l with
  | nil => intro s; rfl
  | cons x xs ih =>
    intro s
    simp only [StackAllocator.freeSeq, List.cons_append, List.foldlM_cons] at ih ⊢
    cases hfx : StackAllocator.free s x with
    | none => simp [hfx]
    | some t => simp [hfx, ih t]

theorem stack_free_reverse (ops : List (Nat × Nat)) : ∀ s : StackAllocator,
    (∀ p ∈ ops, 0 < p.2) → (s.runAllocs ops).2.2 = true →
    StackAllocator.freeSeq (s.runAllocs ops).1 (s.runAllocs ops).2.1.reverse
      = some { (s.runAllocs ops).1 with offset := s.offset } := by
  induction ops with
  | nil => intro s _ _; rfl
  | cons op rest ih =>
    intro s h hok
    obtain ⟨size, align⟩ := op
    have hpos : 0 < align := h (size, align) (by simp)
    have hrest : ∀ p ∈ rest, 0 < p.2 := fun p hp => h p (List.mem_cons_of_mem _ hp)
    by_cases hcap : s.capacity < align_up s.offset align + HEADER_SIZE + size
    · exfalso
      have halloc : StackAllocator.alloc s size align = (s, none) := by
        simp only [StackAllocator.alloc]
        rw [if_pos hcap]
      have : (s.runAllocs ((size, align) :: rest)).2.2 = false := by
        simp only [StackAllocator.runAllocs, halloc]
      rw [this] at hok
      exact Bool.false_ne_true hok
    · have halloc : StackAllocator.alloc s size align =
          (⟨s.capacity, align_up s.offset align + HEADER_SIZE + size,
            (align_up s.offset align, ⟨size, s.offset⟩) :: s.mem⟩,
            some (align_up s.offset align + HEADER_SIZE)) := by
        simp only [StackAllocator.alloc]
        rw [if_neg hcap]
      set s1 : StackAllocator :=
        ⟨s.capacity, align_up s.offset align + HEADER_SIZE + size,
          (align_up s.offset align, ⟨size, s.offset⟩) :: s.mem⟩ with hs1
      have hrun : s.runAllocs ((size, align) :: rest) =
          ((s1.runAllocs rest).1,
            (align_up s.offset align + HEADER_SIZE) :: (s1.runAllocs rest).2.1,
            (s1.runAllocs rest).2.2) := by
        simp only [StackAllocator.runAllocs, halloc]
      rw [hrun] at hok ⊢
      simp only at hok ⊢
      rw [List.reverse_cons, freeSeq_append, ih s1 hrest hok]
      show StackAllocator.freeSeq
          { (s1.runAllocs rest).1 with offset := s1.offset }
          [align_up s.offset align + HEADER_SIZE] = _
      show (StackAllocator.free
          { (s1.runAllocs rest).1 with offset := s1.offset }
          (align_up s.offset align + HEADER_SIZE) >>= fun t =>
            StackAllocator.freeSeq t []) = _
      have hkey : align_up s.offset align + HEADER_SIZE - HEADER_SIZE
          = align_up s.offset align := by omega
      have hlook :
          ((s1.runAllocs rest).1.mem.lookup (align_up s.offset align)) =
            some ⟨size, s.offset⟩ := by
        have hpres := (stack_runAllocs_preserves rest s1 hrest).2
          (align_up s.offset align)
          (by show align_up s.offset align <
                align_up s.offset align + HEADER_SIZE + size
              unfold HEADER_SIZE
              omega)
        rw [hpres]
        show List.lookup (align_up s.offset align)
          ((align_up s.offset align, AllocationHeader.mk size s.offset) :: s.mem)
            = _
        simp [List.lookup]
      simp only [StackAllocator.free, hkey, hlook]
      simp [StackAllocator.freeSeq]

/-- C4: for every stack-allocator state, taking a mark and then performing any
sequence of successful allocations, `free_to_mark(mark)` succeeds and produces
exactly the same state as freeing each of those allocations individually in
reverse order of allocation; in particular `used()` returns to its
pre-allocation (mark-time) value. -/
theorem C4_free_to_mark_equiv (s : StackAllocator) (ops : List (Nat × Nat))
    (haligns : ∀ p ∈ ops, ∃ k, p.2 = 2 ^ k)
    (hok : (s.runAllocs ops).2.2 = true) :
    ∃ t, StackAllocator.free_to_mark (s.runAllocs ops).1 s.mark = some t ∧
      StackAllocator.freeSeq (s.runAllocs ops).1 (s.runAllocs ops).2.1.reverse
        = some t ∧
      t.used = s.used := by
  have hpos : ∀ p ∈ ops, 0 < p.2 := fun p hp => pow2_pos (haligns p hp)
  have hmono := (stack_runAllocs_preserves ops s hpos).1
  refine ⟨{ (s.runAllocs ops).1 with offset := s.offset }, ?_, ?_, rfl⟩
  · unfold StackAllocator.free_to_mark StackAllocator.mark
    rw [if_pos hmono]
  · exact stack_free_reverse ops s hpos hok

/-- C4 (witness): the spec's scenario shape — two aligned allocations after
the mark, bulk-released. -/
theorem C4_free_to_mark_equiv_witness :
    ∃ t, StackAllocator.free_to_mark
        (StackAllocator.runAllocs ⟨1024, 0, []⟩ [(200, 4), (300, 4)]).1
        (StackAllocator.mark ⟨1024, 0, []⟩) = some t ∧
      StackAllocator.freeSeq
          (StackAllocator.runAllocs ⟨1024, 0, []⟩ [(200, 4), (300, 4)]).1
          (StackAllocator.runAllocs ⟨1024, 0, []⟩ [(200, 4), (300, 4)]).2.1.reverse
        = some t ∧
      t.used = StackAllocator.used ⟨1024, 0, []⟩ :=
  C4_free_to_mark_equiv ⟨1024, 0, []⟩ [(200, 4), (300, 4)]
    (by intro p hp; fin_cases hp <;> exact ⟨2, rfl⟩) (by decide)

end Kernel
